import Mathlib

/-!
Shallow embedding of the asynchronous preview pipeline of the `fren`
terminal file browser (src/app.rs, src/ui.rs, src/event.rs).

Pixel dimensions (`u16`/`u32` in the Rust source) are modelled as `Nat`;
none of the embedded arithmetic can overflow its machine width except the
`u64` request counter, whose `wrapping_add` is modelled with an explicit
`% 2^64`.  The rendered artifact (`ratatui_image::protocol::Protocol`) is
opaque to the pipeline and is modelled as a `Nat` handle.  Filesystem
paths are modelled as `String`.
-/

/-- Artifact handle standing for `ratatui_image::protocol::Protocol`. -/
abbrev Protocol := Nat

/-- `quantize` from src/app.rs: `(v / 4) * 4` on `u16` (no overflow, since
`v / 4 * 4 ≤ v`), so plain `Nat` arithmetic is faithful. -/
def quantize (v : Nat) : Nat :=
  v / 4 * 4

/-- `ImageKey` from src/app.rs: cache key of path plus quantized pane
dimensions.  Equality and hashing are over all three fields. -/
structure ImageKey where
  path : String
  width : Nat
  height : Nat
deriving DecidableEq

/-- Bounded LRU store standing for `lru::LruCache<ImageKey, Protocol>`.
The crate itself is an external dependency (not in src/); it is modelled
here by its LRU contract: `entries` keeps most-recently-used first,
`get` promotes on hit, `put` inserts at the front, overwrites an existing
key, and truncates to `cap` (evicting the last, least-recently-used
entry). -/
structure LruCache where
  cap : Nat
  entries : List (ImageKey × Protocol)
deriving DecidableEq

namespace LruCache

/-- Keys currently stored, most recently used first. -/
def keys (c : LruCache) : List ImageKey :=
  c.entries.map Prod.fst

/-- `LruCache::get`: on a hit, return the value and promote the key to
most-recently-used; on a miss, leave the cache unchanged. -/
def getLru (c : LruCache) (k : ImageKey) : Option Protocol × LruCache :=
  match c.entries.find? (fun e => decide (e.1 = k)) with
  | none => ⟨none, c⟩
  | some e => ⟨some e.2, ⟨c.cap, (k, e.2) :: c.entries.filter (fun x => decide (x.1 ≠ k))⟩⟩

/-- `LruCache::put`: remove any existing entry for the key, insert the new
entry as most-recently-used, and truncate to capacity (dropping the
least-recently-used entry when a fresh key is inserted into a full
cache). -/
def put (c : LruCache) (k : ImageKey) (v : Protocol) : LruCache :=
  ⟨c.cap, ((k, v) :: c.entries.filter (fun x => decide (x.1 ≠ k))).take c.cap⟩

end LruCache

/-- The cache constructed in `App::new` (src/app.rs):
`LruCache::new(NonZeroUsize::new(128).unwrap())`, initially empty. -/
def appCache : LruCache :=
  ⟨128, []⟩

/-- One cache operation, as issued by the UI thread (`get`) or the worker
thread (`put`). -/
inductive CacheOp
  | get (k : ImageKey)
  | put (k : ImageKey) (v : Protocol)

/-- Apply one cache operation to the store. -/
def applyCacheOp (c : LruCache) : CacheOp → LruCache
  | .get k => (c.getLru k).2
  | .put k v => c.put k v

/-- Run a sequence of cache operations. -/
def runCacheOps (c : LruCache) (ops : List CacheOp) : LruCache :=
  ops.foldl applyCacheOp c

/-- `PreviewJob` from src/app.rs: a preview request carrying its
generation, the file path, the pane rectangle (width and height of
`inner`, in cells), and the PDF flag. -/
structure PreviewJob where
  request_id : Nat
  path : String
  innerW : Nat
  innerH : Nat
  is_pdf : Bool
deriving DecidableEq

/-- A decoded image: the `image::DynamicImage` dimensions are all the
pipeline inspects before resizing. -/
structure Img where
  w : Nat
  h : Nat
deriving DecidableEq

/-- External-world outcomes consumed by one worker iteration: the
`pdftoppm` process status (`none` models a spawn failure, `some b` models
exit with success flag `b`), the result of `image::open` on the produced
raster, the result of decoding the source file directly, and
`Picker::new_protocol` on the resized image. -/
structure DecodeEnv where
  pdftoppmStatus : Option Bool
  openRaster : Option Img
  decodeImage : Option Img
  newProtocol : Img → Option Protocol

/-- PDF branch of the worker closure (src/app.rs).  Returns the decoded
image (or `none` on failure) together with the list of generations whose
temporary file `/tmp/fm_preview_{gen}.png` is still on disk afterwards.
When `pdftoppm` succeeds but `image::open` on the raster fails, the
closure returns early through `?` before reaching `remove_file`, so the
temporary file is left behind. -/
def pdfDecode (env : DecodeEnv) (gen : Nat) : Option Img × List Nat :=
  match env.pdftoppmStatus with
  | none => ⟨none, []⟩
  | some false => ⟨none, []⟩
  | some true =>
    match env.openRaster with
    | none => ⟨none, [gen]⟩
    | some img => ⟨some img, []⟩

/-- Kind dispatch of the decode step: PDF via the external rasterizer,
otherwise `ImageReader::open(path)?.decode()`.  The image branch touches
no temporary file. -/
def workerDecode (env : DecodeEnv) (job : PreviewJob) : Option Img × List Nat :=
  if job.is_pdf then pdfDecode env job.request_id
  else ⟨env.decodeImage, []⟩

/-- `resize_dimensions` of the `image` crate (used by
`DynamicImage::thumbnail`), with the crate's `f64` ratio arithmetic
modelled exactly over `ℚ`: the scaling ratio is the smaller of the two
per-axis ratios, each output dimension is the rounded scaled input
dimension, and both are clamped below by `1`. -/
def resizeDimensions (w h nw nh : Nat) : Nat × Nat :=
  let ratio : ℚ := min ((nw : ℚ) / (w : ℚ)) ((nh : ℚ) / (h : ℚ))
  ⟨max 1 (round ((w : ℚ) * ratio)).toNat, max 1 (round ((h : ℚ) * ratio)).toNat⟩

/-- `DynamicImage::thumbnail(nw, nh)` at the level of dimensions. -/
def thumbnailImg (img : Img) (nw nh : Nat) : Img :=
  ⟨(resizeDimensions img.w img.h nw nh).1, (resizeDimensions img.w img.h nw nh).2⟩

/-- The worker's resize step (src/app.rs): keep the decoded image as-is
when it already fits in the capped box, otherwise thumbnail it. -/
def workerResize (img : Img) (maxW maxH : Nat) : Img :=
  if img.w ≤ maxW ∧ img.h ≤ maxH then img else thumbnailImg img maxW maxH

/-- Width cap from src/app.rs: `(job.inner.width as u32 * 8).min(2048).max(1)`.
`u16 * 8` fits in `u32`, so `Nat` is faithful. -/
def capW (boxW : Nat) : Nat :=
  max (min (boxW * 8) 2048) 1

/-- Height cap from src/app.rs: `(job.inner.height as u32 * 16).min(2048).max(1)`. -/
def capH (boxH : Nat) : Nat :=
  max (min (boxH * 16) 2048) 1

/-- Cache key under which the worker inserts a produced artifact
(src/app.rs): path plus quantized job rectangle. -/
def workerPutKey (job : PreviewJob) : ImageKey :=
  ⟨job.path, quantize job.innerW, quantize job.innerH⟩

/-- Observable effects of one worker iteration: cache insertions, results
sent on the channel, and temporary files left on disk (named by
generation). -/
structure WorkerEffects where
  cachePuts : List (ImageKey × Protocol)
  sent : List (Nat × Option Protocol)
  tmpLeft : List Nat
deriving DecidableEq

/-- The queue drain in the worker loop (src/app.rs): starting from the
job returned by the blocking `recv`, repeatedly replace it by
`try_recv`'d newer jobs until the queue is empty, keeping only the most
recently enqueued job. -/
def drainQueue (first : PreviewJob) (rest : List PreviewJob) : PreviewJob :=
  rest.foldl (fun _ newer => newer) first

/-- One iteration of the worker thread body (src/app.rs) on the kept job.
`tok1` is the cancellation-token value read before the decode, `tok2` the
value read at the post-decode re-check (the UI thread may store a new
value in between).  If the pre-check fails the worker `continue`s with no
effects.  Otherwise the closure decodes, re-checks the token, resizes,
and builds the protocol; a `None` closure result skips the cache insert,
and the send on the result channel is unconditional. -/
def workerIter (env : DecodeEnv) (tok1 tok2 : Nat) (job : PreviewJob) : WorkerEffects :=
  if tok1 ≠ job.request_id then ⟨[], [], []⟩
  else
    let maxW := capW job.innerW
    let maxH := capH job.innerH
    let dec := workerDecode env job
    match dec.1 with
    | none => ⟨[], [⟨job.request_id, none⟩], dec.2⟩
    | some img =>
      if tok2 ≠ job.request_id then ⟨[], [⟨job.request_id, none⟩], dec.2⟩
      else
        let resized := workerResize img maxW maxH
        match env.newProtocol resized with
        | none => ⟨[], [⟨job.request_id, none⟩], dec.2⟩
        | some p =>
          ⟨[⟨workerPutKey job, p⟩], [⟨job.request_id, some p⟩], dec.2⟩

/-- A directory entry as the preview panel sees it: path, lowercased
extension, and file-kind flags (src/ui.rs computes `ext` via
`extension().to_ascii_lowercase()` and queries `is_file` / `is_dir`). -/
structure Entry where
  path : String
  ext : String
  isFile : Bool
  isDir : Bool
deriving DecidableEq

/-- `matches!(ext.as_str(), "png" | "jpg" | "jpeg" | "webp" | "gif")`
from src/ui.rs. -/
def isImageExt (ext : String) : Bool :=
  ext == "png" || ext == "jpg" || ext == "jpeg" || ext == "webp" || ext == "gif"

/-- The binary-extension test of the text-preview fallback in src/ui.rs. -/
def isBinaryExt (ext : String) : Bool :=
  ext == "png" || ext == "jpg" || ext == "jpeg" || ext == "webp" || ext == "gif"
    || ext == "mp3" || ext == "wav" || ext == "flac"
    || ext == "mp4" || ext == "mkv" || ext == "mov"
    || ext == "zip" || ext == "tar" || ext == "gz" || ext == "rar"
    || ext == "exe" || ext == "bin" || ext == "so" || ext == "pdf"

/-- UI-side preview state carried in `App` (src/app.rs): the adopted
artifact, the path and pane size it was requested for, the loading flag,
the debounce deadline (an `Instant`, modelled as `Nat` milliseconds), the
current request generation, and the shared cancellation-token value
(written only by the UI thread). -/
structure UiState where
  image : Option Protocol
  imagePath : Option String
  imageSize : Option (Nat × Nat)
  imageLoading : Bool
  previewDeadline : Option Nat
  imageRequestId : Nat
  tokenValue : Nat
deriving DecidableEq

/-- What the preview pane renders on a tick. -/
inductive PreviewRender
  | dots
  | imageWidget
  | loadingText
  | dirListing
  | textPreview
  | noPreview
  | blank
deriving DecidableEq

/-- Output of one redraw tick of the preview panel: new UI state, new
cache state, the enqueued preview jobs, and what was rendered. -/
structure TickOut where
  state : UiState
  cache : LruCache
  jobs : List PreviewJob
  render : PreviewRender
deriving DecidableEq

/-- The result poll loop of `draw_ui` (src/ui.rs): drain every available
`(id, result)` pair from the channel; a pair whose id equals the current
request generation is adopted (`image := result`, `image_loading :=
false`), any other pair is dropped. -/
def pollResults (s : UiState) (rs : List (Nat × Option Protocol)) : UiState :=
  rs.foldl
    (fun st r =>
      if r.1 = st.imageRequestId then
        { st with image := r.2, imageLoading := false }
      else st)
    s

/-- Cache key computed by the UI for a lookup (src/ui.rs): path plus
quantized inner-rectangle dimensions. -/
def uiKey (path : String) (iw ih : Nat) : ImageKey :=
  ⟨path, quantize iw, quantize ih⟩

/-- Effect of the cache lookup in the image branch (src/ui.rs): a hit
adopts the cached artifact, clears loading, and records the shown path
and pane size; a miss changes nothing. -/
def applyHit (s : UiState) (hit : Option Protocol) (e : Entry) (iw ih : Nat) : UiState :=
  match hit with
  | none => s
  | some v =>
    { s with image := some v, imageLoading := false,
             imagePath := some e.path, imageSize := some ⟨iw, ih⟩ }

/-- The dispatch step of the image branch (src/ui.rs): bump the request
generation (`wrapping_add(1)` on `u64`), store it into the cancellation
token, clear the artifact, arm a fresh 60 ms debounce deadline, record
path and size, mark loading, and enqueue the job.  The subsequent render
sees `image = none` and draws the loading text. -/
def dispatch (s : UiState) (c : LruCache) (now : Nat) (e : Entry) (iw ih : Nat) : TickOut :=
  let rid := (s.imageRequestId + 1) % 18446744073709551616
  ⟨{ s with imageRequestId := rid, tokenValue := rid, image := none,
            previewDeadline := some (now + 60), imageSize := some ⟨iw, ih⟩,
            imagePath := some e.path, imageLoading := true },
   c, [⟨rid, e.path, iw, ih, e.ext == "pdf"⟩], .loadingText⟩

/-- The final render of the image branch (src/ui.rs): the artifact if one
is present, otherwise the text "Loading preview…". -/
def renderImage (s : UiState) : PreviewRender :=
  match s.image with
  | some _ => .imageWidget
  | none => .loadingText

/-- The image/PDF branch of the preview panel (src/ui.rs): cache lookup,
reload test (`size_changed || path_changed`, blocked while loading), the
minimum-pane guard (`width < 10 || height < 5` renders the placeholder
and returns), dispatch, and render. -/
def imageBranch (s : UiState) (c : LruCache) (now : Nat) (e : Entry) (iw ih : Nat) : TickOut :=
  let looked := c.getLru (uiKey e.path iw ih)
  let s3 := applyHit s looked.1 e iw ih
  if (s3.imageSize ≠ some ⟨iw, ih⟩ ∨ s3.imagePath ≠ some e.path) ∧ s3.imageLoading = false then
    if iw < 10 ∨ ih < 5 then ⟨s3, looked.2, [], .dots⟩
    else dispatch s3 looked.2 now e iw ih
  else ⟨s3, looked.2, [], renderImage s3⟩

/-- The non-image branch of the preview panel (src/ui.rs): reset all
preview state, then render a directory listing, a text preview, or the
"No preview available" fallback according to the entry's kind. -/
def nonImageBranch (s : UiState) (c : LruCache) (e : Entry) : TickOut :=
  ⟨{ s with image := none, imagePath := none, imageLoading := false, imageSize := none },
   c, [],
   if e.isDir then .dirListing
   else if !isBinaryExt e.ext && e.isFile then .textPreview
   else .noPreview⟩

/-- The preview logic of one redraw tick after the debounce gate has been
passed (src/ui.rs): poll the result channel, then branch on the selected
entry's kind. -/
def drawTickAfterDebounce (s : UiState) (c : LruCache) (now : Nat)
    (rs : List (Nat × Option Protocol)) (sel : Option Entry) (iw ih : Nat) : TickOut :=
  let s2 := pollResults s rs
  match sel with
  | none => ⟨s2, c, [], .blank⟩
  | some e =>
    if (isImageExt e.ext || e.ext == "pdf") && e.isFile then
      imageBranch s2 c now e iw ih
    else nonImageBranch s2 c e

/-- One redraw tick of the preview panel (src/ui.rs): if a debounce
deadline is armed and `now` has not reached it, render "…" and do nothing
else; otherwise clear the deadline and run the preview logic. -/
def drawTick (s : UiState) (c : LruCache) (now : Nat)
    (rs : List (Nat × Option Protocol)) (sel : Option Entry) (iw ih : Nat) : TickOut :=
  match s.previewDeadline with
  | some d =>
    if now < d then ⟨s, c, [], .dots⟩
    else drawTickAfterDebounce { s with previewDeadline := none } c now rs sel iw ih
  | none => drawTickAfterDebounce s c now rs sel iw ih

/-- The selection-move handler in src/event.rs (`KeyCode::Down` /
`KeyCode::Up` with file focus): reset the loading flag and the shown
path, and arm a 60 ms debounce deadline. -/
def selectionMove (s : UiState) (now : Nat) : UiState :=
  { s with imageLoading := false, imagePath := none, previewDeadline := some (now + 60) }

/-- Input of one redraw tick: the current time and the results available
on the channel. -/
structure TickIn where
  now : Nat
  results : List (Nat × Option Protocol)
deriving DecidableEq

/-- Run a sequence of redraw ticks against a fixed selection and pane
rectangle, accumulating the enqueued jobs. -/
def runTicks (s : UiState) (c : LruCache) (sel : Option Entry) (iw ih : Nat) :
    List TickIn → UiState × LruCache × List PreviewJob
  | [] => ⟨s, c, []⟩
  | t :: ts =>
    let o := drawTick s c t.now t.results sel iw ih
    let r := runTicks o.state o.cache sel iw ih ts
    ⟨r.1, r.2.1, o.jobs ++ r.2.2⟩

/-- One burst of a rapid-selection scenario: a selection-move event at
some time onto some entry, followed by the redraw ticks that happen
before the next move. -/
structure MoveGroup where
  entry : Entry
  time : Nat
  ticks : List TickIn

/-- Run a sequence of selection-move bursts. -/
def runGroups (s : UiState) (c : LruCache) (iw ih : Nat) :
    List MoveGroup → UiState × LruCache × List PreviewJob
  | [] => ⟨s, c, []⟩
  | g :: gs =>
    let s1 := selectionMove s g.time
    let r1 := runTicks s1 c (some g.entry) iw ih g.ticks
    let r2 := runGroups r1.1 r1.2.1 iw ih gs
    ⟨r2.1, r2.2.1, r1.2.2 ++ r2.2.2⟩

/-- A rapid-selection scenario stays inside the debounce window: every
tick inside a burst happens strictly before the deadline armed by that
burst's move. -/
def GroupsInWindow (gs : List MoveGroup) : Prop :=
  ∀ g ∈ gs, ∀ t ∈ g.ticks, t.now < g.time + 60

/-- A cache filled to its capacity of 128 with distinct keys, used to
exercise the eviction behaviour on a concrete instance. -/
def fullCache : LruCache :=
  ⟨128, (List.range 128).map (fun i => ⟨⟨"p", 4 * i, 0⟩, i⟩)⟩

/-- If `find?` succeeds, some element of the list fails the negated
predicate, so filtering it out strictly shrinks the list. -/
theorem length_filter_lt_of_mem {α : Type} (p : α → Bool) (l : List α) (a : α)
    (ha : a ∈ l) (hpa : p a = false) : (l.filter p).length < l.length := by
  induction l with
  | nil => cases ha
  | cons b l ih =>
    rcases List.mem_cons.mp ha with rfl | ha'
    · simp only [List.filter_cons, hpa, List.length_cons]
      exact Nat.lt_succ_of_le (List.length_filter_le p l)
    · by_cases hb : p b
      · simpa [List.filter_cons, hb] using Nat.succ_lt_succ (ih ha')
      · simp only [List.filter_cons, hb, Bool.false_eq_true, if_false, List.length_cons]
        exact Nat.lt_succ_of_le (List.length_filter_le p l)

/-- A `getLru` never grows the store beyond its previous length bound. -/
theorem getLru_length_le (c : LruCache) (k : ImageKey) (h : c.entries.length ≤ c.cap) :
    ((c.getLru k).2).entries.length ≤ c.cap := by
  unfold LruCache.getLru
  rcases hf : c.entries.find? (fun e => decide (e.1 = k)) with _ | e
  · simp only [hf]
    exact h
  · have hmem : e ∈ c.entries := List.mem_of_find?_eq_some hf
    have hpe : e.1 = k := by simpa using List.find?_some hf
    have hlt : (c.entries.filter (fun x => decide (x.1 ≠ k))).length < c.entries.length := by
      apply length_filter_lt_of_mem _ _ e hmem
      simp [hpe]
    simp only [hf, List.length_cons]
    simp only [ne_eq] at hlt ⊢
    omega

/-- `applyCacheOp` preserves the capacity field. -/
theorem applyCacheOp_cap (c : LruCache) (op : CacheOp) :
    (applyCacheOp c op).cap = c.cap := by
  rcases op with k | ⟨k, v⟩
  · unfold applyCacheOp LruCache.getLru
    rcases hf : c.entries.find? (fun e => decide (e.1 = k)) with _ | e <;> simp [hf]
  · rfl

/-- The capacity bound is an invariant of arbitrary get/put sequences. -/
theorem runCacheOps_inv (ops : List CacheOp) (c : LruCache)
    (hcap : c.cap = 128) (hlen : c.entries.length ≤ 128) :
    (runCacheOps c ops).cap = 128 ∧ (runCacheOps c ops).entries.length ≤ 128 := by
  induction ops generalizing c with
  | nil => exact ⟨hcap, hlen⟩
  | cons op ops ih =>
    have hstep : runCacheOps c (op :: ops) = runCacheOps (applyCacheOp c op) ops := rfl
    rw [hstep]
    apply ih
    · rw [applyCacheOp_cap, hcap]
    · rcases op with k | ⟨k, v⟩
      · have := getLru_length_le c k (by omega)
        simpa [applyCacheOp] using by omega
      · simp only [applyCacheOp, LruCache.put]
        calc (((k, v) :: c.entries.filter (fun x => decide (x.1 ≠ k))).take c.cap).length
            ≤ c.cap := by
              rw [List.length_take]
              omega
        _ = 128 := hcap

/-- C6: across every sequence of get/put operations the cache built in
`App::new` never holds more than its fixed capacity of 128 entries; a put
of a fresh key into a full cache inserts the new entry as
most-recently-used and evicts exactly the least-recently-accessed entry
(the last of the recency list); both put and a successful get promote the
touched key to most-recently-used. -/
theorem cache_bounded_lru_eviction :
    (∀ ops : List CacheOp, (runCacheOps appCache ops).entries.length ≤ 128)
    ∧ (∀ (c : LruCache) (k : ImageKey) (v : Protocol),
        c.cap = 128 → c.entries.length = 128 → k ∉ c.keys →
        (c.put k v).entries = (k, v) :: c.entries.dropLast)
    ∧ (∀ (c : LruCache) (k : ImageKey) (v : Protocol), 1 ≤ c.cap →
        (c.put k v).entries.head? = some (k, v))
    ∧ ∀ (c : LruCache) (k : ImageKey) (v : Protocol),
        (c.getLru k).1 = some v → ((c.getLru k).2).entries.head? = some (k, v) := by
  refine ⟨fun ops => (runCacheOps_inv ops appCache rfl (by simp [appCache])).2,
    fun c k v hcap hlen hk => ?_, fun c k v hcap => ?_, fun c k v hget => ?_⟩
  · have hfilter : c.entries.filter (fun x => decide (x.1 ≠ k)) = c.entries := by
      apply List.filter_eq_self.mpr
      intro x hx
      simp only [decide_eq_true_eq, ne_eq]
      intro hxk
      exact hk (hxk ▸ List.mem_map_of_mem Prod.fst hx)
    simp only [LruCache.put, hfilter, hcap]
    have h128 : 128 = 127 + 1 := rfl
    rw [h128, List.take_succ_cons, List.dropLast_eq_take, hlen]
  · rcases hc : c.cap with _ | n
    · omega
    · simp [LruCache.put, hc, List.take_succ_cons]
  · unfold LruCache.getLru at hget ⊢
    rcases hf : c.entries.find? (fun e => decide (e.1 = k)) with _ | e
    · rw [hf] at hget
      simp at hget
    · rw [hf] at hget
      simp only [hf, Option.some.injEq] at hget ⊢
      simp [← hget]

set_option maxRecDepth 8000 in
/-- Witness for `cache_bounded_lru_eviction` at a concrete full cache:
inserting a fresh key evicts exactly the least-recently-used entry, and
both access kinds promote. -/
theorem cache_bounded_lru_eviction_witness :
    (fullCache.put ⟨"q", 0, 0⟩ 7).entries
      = (⟨⟨"q", 0, 0⟩, 7⟩ : ImageKey × Protocol) :: fullCache.entries.dropLast
    ∧ (fullCache.put ⟨"q", 0, 0⟩ 7).entries.head? = some ⟨⟨"q", 0, 0⟩, 7⟩ := by
  constructor
  · exact cache_bounded_lru_eviction.2.1 fullCache ⟨"q", 0, 0⟩ 7 (by decide) (by decide) (by decide)
  · exact cache_bounded_lru_eviction.2.2.1 fullCache ⟨"q", 0, 0⟩ 7 (by decide)

/-- C9: `quantize` rounds down to the nearest multiple of 4 (its value is
a multiple of 4, is at most the input, exceeds the input minus 4, and
dominates every multiple of 4 below the input), is total by construction,
idempotent, and monotone non-decreasing. -/
theorem quantize_rounds_down_idem_mono :
    (∀ v : Nat, quantize v % 4 = 0 ∧ quantize v ≤ v ∧ v < quantize v + 4
      ∧ ∀ m : Nat, m % 4 = 0 → m ≤ v → m ≤ quantize v)
    ∧ (∀ v : Nat, quantize (quantize v) = quantize v)
    ∧ ∀ v1 v2 : Nat, v1 ≤ v2 → quantize v1 ≤ quantize v2 := by
  unfold quantize
  refine ⟨fun v => ⟨?_, ?_, ?_, fun m hm hle => ?_⟩, fun v => ?_, fun v1 v2 h => ?_⟩ <;> omega

/-- Witness for `quantize_rounds_down_idem_mono`: maximality and
monotonicity at concrete inputs. -/
theorem quantize_rounds_down_idem_mono_witness :
    8 ≤ quantize 10 ∧ quantize 5 ≤ quantize 10 :=
  ⟨(quantize_rounds_down_idem_mono.1 10).2.2.2 8 (by decide) (by decide),
   quantize_rounds_down_idem_mono.2.2 5 10 (by decide)⟩

/-- C4: the worker's drain loop keeps exactly the most recently enqueued
job of the backlog, and a kept job whose generation differs from the
cancellation-token value read before decoding is discarded with no cache
insertion, no send on the result channel, and no filesystem effect. -/
theorem worker_drain_and_stale_precheck :
    (∀ (j : PreviewJob) (q : List PreviewJob),
        drainQueue j q = (j :: q).getLast (by simp))
    ∧ ∀ (env : DecodeEnv) (tok1 tok2 : Nat) (job : PreviewJob),
        tok1 ≠ job.request_id → workerIter env tok1 tok2 job = ⟨[], [], []⟩ := by
  constructor
  · intro j q
    induction q generalizing j with
    | nil => rfl
    | cons a q ih =>
      have h1 : drainQueue j (a :: q) = drainQueue a q := rfl
      rw [h1, ih a]
      simp
  · intro env tok1 tok2 job h
    simp [workerIter, h]

/-- Witness for `worker_drain_and_stale_precheck`: a stale pre-check at a
concrete job has no effects at all. -/
theorem worker_drain_and_stale_precheck_witness :
    workerIter ⟨none, none, none, fun _ => none⟩ 3 7 ⟨4, "p", 1, 1, false⟩ = ⟨[], [], []⟩ :=
  worker_drain_and_stale_precheck.2 ⟨none, none, none, fun _ => none⟩ 3 7
    ⟨4, "p", 1, 1, false⟩ (by decide)

/-- A successful decode leaves no temporary file behind: the image branch
touches none, and the successful PDF branch reaches `remove_file`. -/
theorem pdfDecode_some_no_tmp (env : DecodeEnv) (gen : Nat) (img : Img)
    (h : (pdfDecode env gen).1 = some img) : (pdfDecode env gen).2 = [] := by
  revert h
  unfold pdfDecode
  cases env.pdftoppmStatus with
  | none =>
    intro h
    simp at h
  | some b =>
    cases b with
    | false =>
      intro h
      simp at h
    | true =>
      cases env.openRaster with
      | none =>
        intro h
        simp at h
      | some i =>
        intro h
        rfl

/-- A successful decode leaves no temporary file behind in either branch
of the kind dispatch. -/
theorem workerDecode_some_no_tmp (env : DecodeEnv) (job : PreviewJob) (img : Img)
    (h : (workerDecode env job).1 = some img) : (workerDecode env job).2 = [] := by
  unfold workerDecode at h ⊢
  by_cases hp : job.is_pdf = true
  · rw [if_pos hp] at h ⊢
    exact pdfDecode_some_no_tmp env job.request_id img h
  · rw [if_neg hp]

/-- C1 (amended): when the decode succeeds but the generation no longer
matches the token at the post-decode re-check, the worker inserts nothing
into the cache and discards the decoded artifact, but it still sends a
`(generation, None)` result over the channel — the send in src/app.rs is
unconditional. -/
theorem stale_after_decode_no_cache_but_sends_none :
    ∀ (env : DecodeEnv) (tok2 : Nat) (job : PreviewJob) (img : Img),
      (workerDecode env job).1 = some img →
      tok2 ≠ job.request_id →
      workerIter env job.request_id tok2 job = ⟨[], [⟨job.request_id, none⟩], []⟩ := by
  intro env tok2 job img hdec htok
  have htmp := workerDecode_some_no_tmp env job img hdec
  simp [workerIter, hdec, htmp, htok]

/-- Witness for `stale_after_decode_no_cache_but_sends_none` at a
concrete environment and job. -/
theorem stale_after_decode_no_cache_but_sends_none_witness :
    workerIter ⟨none, none, some ⟨4, 4⟩, fun _ => some 0⟩ 7 8 ⟨7, "a.png", 20, 10, false⟩
      = ⟨[], [⟨7, none⟩], []⟩ :=
  stale_after_decode_no_cache_but_sends_none ⟨none, none, some ⟨4, 4⟩, fun _ => some 0⟩ 8
    ⟨7, "a.png", 20, 10, false⟩ ⟨4, 4⟩ rfl (by decide)

/-- Counterexample to C1 as stated: at a concrete superseded job whose
decode succeeded, the worker does publish on the result channel — a
`(generation, None)` pair — rather than publishing nothing. -/
theorem stale_after_decode_counterexample :
    (workerIter ⟨none, none, some ⟨4, 4⟩, fun _ => some 0⟩ 7 8 ⟨7, "b.png", 20, 10, false⟩).sent
        = [⟨7, none⟩]
    ∧ (workerIter ⟨none, none, some ⟨4, 4⟩, fun _ => some 0⟩ 7 8 ⟨7, "b.png", 20, 10, false⟩).sent
        ≠ [] := by
  constructor <;> decide

/-- C3: at a concrete PDF job whose rasterization succeeds but whose
produced raster fails to decode, the closure returns through `?` before
`remove_file`, so the temporary file named from the generation is still
present after the job completes (and a `(generation, None)` result is
sent with nothing cached). -/
theorem pdf_tmp_left_on_raster_decode_failure :
    workerIter ⟨some true, none, none, fun _ => some 0⟩ 5 5 ⟨5, "doc.pdf", 40, 20, true⟩
      = ⟨[], [⟨5, none⟩], [5]⟩ := by
  decide

/-- C5: the result poll loop drops every received result whose generation
differs from the UI's current request generation — the whole UI preview
state, in particular `image` and `image_loading`, is left unchanged — and
adopts a result whose generation matches. -/
theorem poll_generation_filter :
    (∀ (s : UiState) (rs : List (Nat × Option Protocol)),
        (∀ r ∈ rs, r.1 ≠ s.imageRequestId) → pollResults s rs = s)
    ∧ ∀ (s : UiState) (a : Option Protocol),
        pollResults s [⟨s.imageRequestId, a⟩] = { s with image := a, imageLoading := false } := by
  constructor
  · intro s rs h
    induction rs with
    | nil => rfl
    | cons r rs ih =>
      have hr : r.1 ≠ s.imageRequestId := h r (List.mem_cons_self r rs)
      have hstep : pollResults s (r :: rs) = pollResults s rs := by
        simp [pollResults, hr]
      rw [hstep]
      exact ih fun x hx => h x (List.mem_cons_of_mem r hx)
  · intro s a
    simp [pollResults]

/-- Witness for `poll_generation_filter`: a mismatched result at a
concrete state changes nothing. -/
theorem poll_generation_filter_witness :
    pollResults ⟨some 2, none, none, true, none, 5, 5⟩ [⟨3, some 9⟩]
      = ⟨some 2, none, none, true, none, 5, 5⟩ :=
  poll_generation_filter.1 ⟨some 2, none, none, true, none, 5, 5⟩ [⟨3, some 9⟩] (by decide)

/-- The poll loop only ever writes the `image` and `image_loading`
fields; every other field of the UI state is preserved. -/
theorem pollResults_other_fields (rs : List (Nat × Option Protocol)) (s : UiState) :
    (pollResults s rs).imagePath = s.imagePath
    ∧ (pollResults s rs).imageSize = s.imageSize
    ∧ (pollResults s rs).imageRequestId = s.imageRequestId
    ∧ (pollResults s rs).previewDeadline = s.previewDeadline
    ∧ (pollResults s rs).tokenValue = s.tokenValue := by
  induction rs generalizing s with
  | nil => exact ⟨rfl, rfl, rfl, rfl, rfl⟩
  | cons r rs ih =>
    by_cases hr : r.1 = s.imageRequestId
    · have h := ih { s with image := r.2, imageLoading := false }
      have hstep : pollResults s (r :: rs)
          = pollResults { s with image := r.2, imageLoading := false } rs := by
        simp [pollResults, hr]
      rw [hstep]
      exact h
    · have h := ih s
      have hstep : pollResults s (r :: rs) = pollResults s rs := by
        simp [pollResults, hr]
      rw [hstep]
      exact h

/-- C2 (amended): a failed decode makes the worker deliver a
`(generation, None)` result with nothing inserted into the cache; on the
UI side, adopting that result clears the loading flag, but the preview
pane then renders the "Loading preview…" placeholder — the image branch
of src/ui.rs draws the loading text whenever no artifact is present, and
its "No preview available" text is reserved for non-previewable file
kinds. -/
theorem decode_failure_delivers_none_renders_loading :
    (∀ (env : DecodeEnv) (tok2 : Nat) (job : PreviewJob),
        (workerDecode env job).1 = none →
        workerIter env job.request_id tok2 job
          = ⟨[], [⟨job.request_id, none⟩], (workerDecode env job).2⟩)
    ∧ ∀ (s : UiState) (c : LruCache) (now : Nat) (e : Entry) (iw ih : Nat),
        s.previewDeadline = none →
        s.imagePath = some e.path →
        s.imageSize = some ⟨iw, ih⟩ →
        ((isImageExt e.ext || e.ext == "pdf") && e.isFile) = true →
        (c.getLru (uiKey e.path iw ih)).1 = none →
        (drawTick s c now [⟨s.imageRequestId, none⟩] (some e) iw ih).state.image = none
        ∧ (drawTick s c now [⟨s.imageRequestId, none⟩] (some e) iw ih).state.imageLoading = false
        ∧ (drawTick s c now [⟨s.imageRequestId, none⟩] (some e) iw ih).render
            = PreviewRender.loadingText := by
  constructor
  · intro env tok2 job hdec
    simp [workerIter, hdec]
  · intro s c now e iw ih hdl hpath hsize hkind hmiss
    have hpoll : pollResults s [⟨s.imageRequestId, none⟩]
        = { s with image := none, imageLoading := false } := by
      simp [pollResults]
    have hdt : drawTick s c now [⟨s.imageRequestId, none⟩] (some e) iw ih
        = drawTickAfterDebounce s c now [⟨s.imageRequestId, none⟩] (some e) iw ih := by
      unfold drawTick
      rw [hdl]
    rw [hdt]
    unfold drawTickAfterDebounce imageBranch
    rw [hpoll]
    simp [hkind, hmiss, applyHit, hsize, hpath, renderImage]

/-- Witness for `decode_failure_delivers_none_renders_loading` at a
concrete failed decode and a concrete UI state. -/
theorem decode_failure_delivers_none_renders_loading_witness :
    workerIter ⟨none, none, none, fun _ => none⟩ 9 9 ⟨9, "x.jpg", 40, 20, false⟩
      = ⟨[], [⟨9, none⟩], []⟩
    ∧ (drawTick ⟨none, some "x.jpg", some ⟨40, 20⟩, true, none, 2, 2⟩ appCache 0
        [⟨2, none⟩] (some ⟨"x.jpg", "jpg", true, false⟩) 40 20).render
        = PreviewRender.loadingText :=
  ⟨decode_failure_delivers_none_renders_loading.1 ⟨none, none, none, fun _ => none⟩ 9
      ⟨9, "x.jpg", 40, 20, false⟩ rfl,
   (decode_failure_delivers_none_renders_loading.2
      ⟨none, some "x.jpg", some ⟨40, 20⟩, true, none, 2, 2⟩ appCache 0
      ⟨"x.jpg", "jpg", true, false⟩ 40 20 rfl rfl rfl (by decide) (by decide)).2.2⟩

/-- Counterexample to C2 as stated: at a concrete state that has adopted
a failed decode's `None` result, the preview pane renders the loading
placeholder "Loading preview…", not "No preview available", even though
the loading flag is false. -/
theorem decode_failure_render_counterexample :
    (drawTick ⟨none, some "corrupt.jpg", some ⟨40, 20⟩, true, none, 1, 1⟩ appCache 0
        [⟨1, none⟩] (some ⟨"corrupt.jpg", "jpg", true, false⟩) 40 20).state.imageLoading = false
    ∧ (drawTick ⟨none, some "corrupt.jpg", some ⟨40, 20⟩, true, none, 1, 1⟩ appCache 0
        [⟨1, none⟩] (some ⟨"corrupt.jpg", "jpg", true, false⟩) 40 20).render
        = PreviewRender.loadingText
    ∧ PreviewRender.loadingText ≠ PreviewRender.noPreview := by
  refine ⟨by decide, by decide, by decide⟩

/-- Rounding over ℚ is monotone. -/
theorem round_le_round_q {x y : ℚ} (h : x ≤ y) : round x ≤ round y := by
  rw [round_eq, round_eq]
  exact Int.floor_le_floor (by linarith)

/-- A scaled dimension that stays below a positive integer bound stays
below it after rounding and clamping. -/
theorem round_dim_le (x : ℚ) (n : Nat) (h1 : 1 ≤ n) (hx : x ≤ (n : ℚ)) :
    max 1 (round x).toNat ≤ n := by
  have h2 : round x ≤ (n : ℤ) := by
    have h3 := round_le_round_q hx
    rwa [round_natCast] at h3
  have h4 : (round x).toNat ≤ n := Int.toNat_le.mpr h2
  exact max_le h1 h4

/-- C8: the capped target box computed by the worker equals the spec's
`min(2048, max(1, cell_multiplier × box_dim))` formula; an image already
fitting the capped box is used as-is; an image exceeding it is scaled by
the thumbnail step so that the result fits within the box and neither
dimension grows (never upscaled). -/
theorem target_box_cap_and_resize :
    (∀ bw : Nat, capW bw = min 2048 (max 1 (8 * bw)))
    ∧ (∀ bh : Nat, capH bh = min 2048 (max 1 (16 * bh)))
    ∧ (∀ (img : Img) (mw mh : Nat), img.w ≤ mw → img.h ≤ mh → workerResize img mw mh = img)
    ∧ ∀ (img : Img) (mw mh : Nat),
        1 ≤ img.w → 1 ≤ img.h → 1 ≤ mw → 1 ≤ mh → ¬(img.w ≤ mw ∧ img.h ≤ mh) →
        (workerResize img mw mh).w ≤ mw ∧ (workerResize img mw mh).h ≤ mh
          ∧ (workerResize img mw mh).w ≤ img.w ∧ (workerResize img mw mh).h ≤ img.h := by
  refine ⟨fun bw => by unfold capW; omega, fun bh => by unfold capH; omega,
    fun img mw mh h1 h2 => by unfold workerResize; rw [if_pos ⟨h1, h2⟩],
    fun img mw mh hw hh hmw hmh hn => ?_⟩
  have hW0 : (0 : ℚ) < (img.w : ℚ) := by
    exact_mod_cast Nat.lt_of_lt_of_le Nat.one_pos hw
  have hH0 : (0 : ℚ) < (img.h : ℚ) := by
    exact_mod_cast Nat.lt_of_lt_of_le Nat.one_pos hh
  have hb1 : (img.w : ℚ) * min ((mw : ℚ) / (img.w : ℚ)) ((mh : ℚ) / (img.h : ℚ)) ≤ (mw : ℚ) := by
    calc (img.w : ℚ) * min ((mw : ℚ) / (img.w : ℚ)) ((mh : ℚ) / (img.h : ℚ))
        ≤ (img.w : ℚ) * ((mw : ℚ) / (img.w : ℚ)) :=
          mul_le_mul_of_nonneg_left (min_le_left _ _) hW0.le
      _ = (mw : ℚ) := by
          rw [mul_comm]
          exact div_mul_cancel₀ _ (ne_of_gt hW0)
  have hb2 : (img.h : ℚ) * min ((mw : ℚ) / (img.w : ℚ)) ((mh : ℚ) / (img.h : ℚ)) ≤ (mh : ℚ) := by
    calc (img.h : ℚ) * min ((mw : ℚ) / (img.w : ℚ)) ((mh : ℚ) / (img.h : ℚ))
        ≤ (img.h : ℚ) * ((mh : ℚ) / (img.h : ℚ)) :=
          mul_le_mul_of_nonneg_left (min_le_right _ _) hH0.le
      _ = (mh : ℚ) := by
          rw [mul_comm]
          exact div_mul_cancel₀ _ (ne_of_gt hH0)
  have hr1 : min ((mw : ℚ) / (img.w : ℚ)) ((mh : ℚ) / (img.h : ℚ)) ≤ 1 := by
    rcases not_and_or.mp hn with hcase | hcase
    · have hlt : mw ≤ img.w := Nat.le_of_lt (Nat.lt_of_not_le hcase)
      have : (mw : ℚ) / (img.w : ℚ) ≤ 1 := by
        rw [div_le_one hW0]
        exact_mod_cast hlt
      exact le_trans (min_le_left _ _) this
    · have hlt : mh ≤ img.h := Nat.le_of_lt (Nat.lt_of_not_le hcase)
      have : (mh : ℚ) / (img.h : ℚ) ≤ 1 := by
        rw [div_le_one hH0]
        exact_mod_cast hlt
      exact le_trans (min_le_right _ _) this
  have hb3 : (img.w : ℚ) * min ((mw : ℚ) / (img.w : ℚ)) ((mh : ℚ) / (img.h : ℚ)) ≤ (img.w : ℚ) := by
    calc (img.w : ℚ) * min ((mw : ℚ) / (img.w : ℚ)) ((mh : ℚ) / (img.h : ℚ))
        ≤ (img.w : ℚ) * 1 := mul_le_mul_of_nonneg_left hr1 hW0.le
      _ = (img.w : ℚ) := mul_one _
  have hb4 : (img.h : ℚ) * min ((mw : ℚ) / (img.w : ℚ)) ((mh : ℚ) / (img.h : ℚ)) ≤ (img.h : ℚ) := by
    calc (img.h : ℚ) * min ((mw : ℚ) / (img.w : ℚ)) ((mh : ℚ) / (img.h : ℚ))
        ≤ (img.h : ℚ) * 1 := mul_le_mul_of_nonneg_left hr1 hH0.le
      _ = (img.h : ℚ) := mul_one _
  unfold workerResize
  rw [if_neg hn]
  unfold thumbnailImg resizeDimensions
  exact ⟨round_dim_le _ mw hmw hb1, round_dim_le _ mh hmh hb2,
    round_dim_le _ img.w hw hb3, round_dim_le _ img.h hh hb4⟩

/-- Witness for `target_box_cap_and_resize`: the fit branch at a concrete
image, and the thumbnail branch at a concrete oversized image. -/
theorem target_box_cap_and_resize_witness :
    workerResize ⟨100, 50⟩ 160 320 = (⟨100, 50⟩ : Img)
    ∧ (workerResize ⟨100, 50⟩ 10 10).w ≤ 10 ∧ (workerResize ⟨100, 50⟩ 10 10).h ≤ 50 :=
  ⟨target_box_cap_and_resize.2.2.1 ⟨100, 50⟩ 160 320 (by decide) (by decide),
   (target_box_cap_and_resize.2.2.2 ⟨100, 50⟩ 10 10 (by decide) (by decide) (by decide)
      (by decide) (by decide)).1,
   (target_box_cap_and_resize.2.2.2 ⟨100, 50⟩ 10 10 (by decide) (by decide) (by decide)
      (by decide) (by decide)).2.2.2⟩

/-- A tick strictly before the armed debounce deadline renders the
placeholder and does nothing else: state, cache and job queue are
untouched. -/
theorem drawTick_before_deadline (s : UiState) (c : LruCache) (now : Nat)
    (rs : List (Nat × Option Protocol)) (sel : Option Entry) (iw ih : Nat) (d : Nat)
    (hd : s.previewDeadline = some d) (hnow : now < d) :
    drawTick s c now rs sel iw ih = ⟨s, c, [], PreviewRender.dots⟩ := by
  unfold drawTick
  rw [hd]
  simp [hnow]

/-- Shape of the image branch: either no job is enqueued, or exactly one
job for this entry and rectangle is enqueued and the resulting state
records that path and size. -/
theorem imageBranch_shape (s : UiState) (c : LruCache) (now : Nat) (e : Entry) (iw ih : Nat) :
    (imageBranch s c now e iw ih).jobs = []
    ∨ ((imageBranch s c now e iw ih).state.imagePath = some e.path
       ∧ (imageBranch s c now e iw ih).state.imageSize = some ⟨iw, ih⟩
       ∧ ∃ rid, (imageBranch s c now e iw ih).jobs = [⟨rid, e.path, iw, ih, e.ext == "pdf"⟩]) := by
  simp only [imageBranch]
  split
  · split
    · exact Or.inl rfl
    · exact Or.inr ⟨rfl, rfl, _, rfl⟩
  · exact Or.inl rfl

/-- Lifting `imageBranch_shape` through the poll step and the debounce
gate: shape of a full tick against an image-file selection. -/
theorem drawTick_shape (s : UiState) (c : LruCache) (now : Nat)
    (rs : List (Nat × Option Protocol)) (e : Entry) (iw ih : Nat)
    (hkind : ((isImageExt e.ext || e.ext == "pdf") && e.isFile) = true) :
    (drawTick s c now rs (some e) iw ih).jobs = []
    ∨ ((drawTick s c now rs (some e) iw ih).state.imagePath = some e.path
       ∧ (drawTick s c now rs (some e) iw ih).state.imageSize = some ⟨iw, ih⟩
       ∧ ∃ rid, (drawTick s c now rs (some e) iw ih).jobs
           = [⟨rid, e.path, iw, ih, e.ext == "pdf"⟩]) := by
  have hbranch : ∀ (s1 : UiState),
      drawTickAfterDebounce s1 c now rs (some e) iw ih
        = imageBranch (pollResults s1 rs) c now e iw ih := by
    intro s1
    have h : drawTickAfterDebounce s1 c now rs (some e) iw ih
        = if ((isImageExt e.ext || e.ext == "pdf") && e.isFile) = true
          then imageBranch (pollResults s1 rs) c now e iw ih
          else nonImageBranch (pollResults s1 rs) c e := rfl
    rw [h, if_pos hkind]
  rcases hdl : s.previewDeadline with _ | d
  · have h1 : drawTick s c now rs (some e) iw ih
        = drawTickAfterDebounce s c now rs (some e) iw ih := by
      unfold drawTick
      rw [hdl]
    rw [h1, hbranch s]
    exact imageBranch_shape _ _ _ _ _ _
  · by_cases hnow : now < d
    · rw [drawTick_before_deadline s c now rs (some e) iw ih d hdl hnow]
      exact Or.inl rfl
    · have h1 : drawTick s c now rs (some e) iw ih
          = drawTickAfterDebounce { s with previewDeadline := none } c now rs (some e) iw ih := by
        unfold drawTick
        simp only [hdl]
        rw [if_neg hnow]
      rw [h1, hbranch { s with previewDeadline := none }]
      exact imageBranch_shape _ _ _ _ _ _

/-- The image branch of a state that already records the selected path
and current pane size enqueues nothing and keeps recording them. -/
theorem imageBranch_noMore (s : UiState) (c : LruCache) (now : Nat) (e : Entry) (iw ih : Nat)
    (hpath : s.imagePath = some e.path) (hsize : s.imageSize = some ⟨iw, ih⟩) :
    (imageBranch s c now e iw ih).jobs = []
    ∧ (imageBranch s c now e iw ih).state.imagePath = some e.path
    ∧ (imageBranch s c now e iw ih).state.imageSize = some ⟨iw, ih⟩ := by
  have hs3path : (applyHit s (c.getLru (uiKey e.path iw ih)).1 e iw ih).imagePath
      = some e.path := by
    rcases (c.getLru (uiKey e.path iw ih)).1 with _ | v
    · simpa [applyHit] using hpath
    · rfl
  have hs3size : (applyHit s (c.getLru (uiKey e.path iw ih)).1 e iw ih).imageSize
      = some ⟨iw, ih⟩ := by
    rcases (c.getLru (uiKey e.path iw ih)).1 with _ | v
    · simpa [applyHit] using hsize
    · rfl
  have hcond : ¬(((applyHit s (c.getLru (uiKey e.path iw ih)).1 e iw ih).imageSize
        ≠ some ⟨iw, ih⟩
      ∨ (applyHit s (c.getLru (uiKey e.path iw ih)).1 e iw ih).imagePath ≠ some e.path)
      ∧ (applyHit s (c.getLru (uiKey e.path iw ih)).1 e iw ih).imageLoading = false) := by
    simp [hs3path, hs3size]
  have h : imageBranch s c now e iw ih
      = if ((applyHit s (c.getLru (uiKey e.path iw ih)).1 e iw ih).imageSize ≠ some ⟨iw, ih⟩
          ∨ (applyHit s (c.getLru (uiKey e.path iw ih)).1 e iw ih).imagePath ≠ some e.path)
          ∧ (applyHit s (c.getLru (uiKey e.path iw ih)).1 e iw ih).imageLoading = false
        then if iw < 10 ∨ ih < 5
          then ⟨applyHit s (c.getLru (uiKey e.path iw ih)).1 e iw ih,
                (c.getLru (uiKey e.path iw ih)).2, [], PreviewRender.dots⟩
          else dispatch (applyHit s (c.getLru (uiKey e.path iw ih)).1 e iw ih)
                 (c.getLru (uiKey e.path iw ih)).2 now e iw ih
        else ⟨applyHit s (c.getLru (uiKey e.path iw ih)).1 e iw ih,
              (c.getLru (uiKey e.path iw ih)).2, [],
              renderImage (applyHit s (c.getLru (uiKey e.path iw ih)).1 e iw ih)⟩ := rfl
  rw [h, if_neg hcond]
  exact ⟨rfl, hs3path, hs3size⟩

/-- Lifting `imageBranch_noMore` through the poll step and the debounce
gate. -/
theorem drawTick_noMore (s : UiState) (c : LruCache) (now : Nat)
    (rs : List (Nat × Option Protocol)) (e : Entry) (iw ih : Nat)
    (hkind : ((isImageExt e.ext || e.ext == "pdf") && e.isFile) = true)
    (hpath : s.imagePath = some e.path) (hsize : s.imageSize = some ⟨iw, ih⟩) :
    (drawTick s c now rs (some e) iw ih).jobs = []
    ∧ (drawTick s c now rs (some e) iw ih).state.imagePath = some e.path
    ∧ (drawTick s c now rs (some e) iw ih).state.imageSize = some ⟨iw, ih⟩ := by
  have hbranch : ∀ (s1 : UiState),
      drawTickAfterDebounce s1 c now rs (some e) iw ih
        = imageBranch (pollResults s1 rs) c now e iw ih := by
    intro s1
    have h : drawTickAfterDebounce s1 c now rs (some e) iw ih
        = if ((isImageExt e.ext || e.ext == "pdf") && e.isFile) = true
          then imageBranch (pollResults s1 rs) c now e iw ih
          else nonImageBranch (pollResults s1 rs) c e := rfl
    rw [h, if_pos hkind]
  rcases hdl : s.previewDeadline with _ | d
  · have h1 : drawTick s c now rs (some e) iw ih
        = drawTickAfterDebounce s c now rs (some e) iw ih := by
      unfold drawTick
      rw [hdl]
    rw [h1, hbranch s]
    exact imageBranch_noMore (pollResults s rs) c now e iw ih
      (((pollResults_other_fields rs s).1).trans hpath)
      (((pollResults_other_fields rs s).2.1).trans hsize)
  · by_cases hnow : now < d
    · rw [drawTick_before_deadline s c now rs (some e) iw ih d hdl hnow]
      exact ⟨rfl, hpath, hsize⟩
    · have h1 : drawTick s c now rs (some e) iw ih
          = drawTickAfterDebounce { s with previewDeadline := none } c now rs (some e) iw ih := by
        unfold drawTick
        simp only [hdl]
        rw [if_neg hnow]
      rw [h1, hbranch { s with previewDeadline := none }]
      exact imageBranch_noMore (pollResults { s with previewDeadline := none } rs) c now e iw ih
        (((pollResults_other_fields rs { s with previewDeadline := none }).1).trans hpath)
        (((pollResults_other_fields rs { s with previewDeadline := none }).2.1).trans hsize)

/-- A tick against a selection that is not an image or PDF file never
enqueues a job (after the debounce gate it takes the non-image branch). -/
theorem drawTick_nonImage_jobs (s : UiState) (c : LruCache) (now : Nat)
    (rs : List (Nat × Option Protocol)) (sel : Option Entry) (iw ih : Nat)
    (hkind : ∀ e, sel = some e → ((isImageExt e.ext || e.ext == "pdf") && e.isFile) = false) :
    (drawTick s c now rs sel iw ih).jobs = [] := by
  have hafter : ∀ (s1 : UiState),
      (drawTickAfterDebounce s1 c now rs sel iw ih).jobs = [] := by
    intro s1
    rcases sel with _ | e
    · rfl
    · have hk := hkind e rfl
      have h : drawTickAfterDebounce s1 c now rs (some e) iw ih
          = if ((isImageExt e.ext || e.ext == "pdf") && e.isFile) = true
            then imageBranch (pollResults s1 rs) c now e iw ih
            else nonImageBranch (pollResults s1 rs) c e := rfl
      rw [h, if_neg (by simp [hk])]
      rfl
  rcases hdl : s.previewDeadline with _ | d
  · have h1 : drawTick s c now rs sel iw ih = drawTickAfterDebounce s c now rs sel iw ih := by
      unfold drawTick
      rw [hdl]
    rw [h1]
    exact hafter s
  · by_cases hnow : now < d
    · rw [drawTick_before_deadline s c now rs sel iw ih d hdl hnow]
    · have h1 : drawTick s c now rs sel iw ih
          = drawTickAfterDebounce { s with previewDeadline := none } c now rs sel iw ih := by
        unfold drawTick
        simp only [hdl]
        rw [if_neg hnow]
      rw [h1]
      exact hafter { s with previewDeadline := none }

/-- Ticks that all fall strictly before the armed deadline change
nothing and enqueue nothing. -/
theorem runTicks_within_deadline (sel : Option Entry) (iw ih d : Nat) :
    ∀ (ts : List TickIn) (s : UiState) (c : LruCache),
      s.previewDeadline = some d → (∀ t ∈ ts, t.now < d) →
      runTicks s c sel iw ih ts = ⟨s, c, []⟩ := by
  intro ts
  induction ts with
  | nil =>
    intro s c _ _
    rfl
  | cons t ts ih2 =>
    intro s c hd hts
    have h1 := drawTick_before_deadline s c t.now t.results sel iw ih d hd
      (hts t (List.mem_cons_self t ts))
    simp only [runTicks]
    rw [h1]
    rw [ih2 s c hd (fun x hx => hts x (List.mem_cons_of_mem t hx))]
    rfl

/-- Against a fixed selection that is not an image or PDF file, no run of
ticks ever enqueues a job. -/
theorem runTicks_nonImage (sel : Option Entry) (iw ih : Nat)
    (hkind : ∀ e, sel = some e → ((isImageExt e.ext || e.ext == "pdf") && e.isFile) = false) :
    ∀ (ts : List TickIn) (s : UiState) (c : LruCache),
      (runTicks s c sel iw ih ts).2.2 = [] := by
  intro ts
  induction ts with
  | nil =>
    intro s c
    rfl
  | cons t ts ih2 =>
    intro s c
    simp only [runTicks]
    rw [drawTick_nonImage_jobs s c t.now t.results sel iw ih hkind]
    rw [List.nil_append]
    exact ih2 _ _

/-- Against a fixed image-file selection and pane rectangle, any run of
ticks enqueues at most one job, always carrying that selection and
rectangle; and once the state records the selection's path and size, no
further job is ever enqueued. -/
theorem runTicks_at_most_one (e : Entry) (iw ih : Nat)
    (hkind : ((isImageExt e.ext || e.ext == "pdf") && e.isFile) = true) :
    ∀ (ts : List TickIn) (s : UiState) (c : LruCache),
      ((s.imagePath = some e.path ∧ s.imageSize = some ⟨iw, ih⟩) →
        (runTicks s c (some e) iw ih ts).2.2 = [])
      ∧ (runTicks s c (some e) iw ih ts).2.2.length ≤ 1
      ∧ ∀ j ∈ (runTicks s c (some e) iw ih ts).2.2,
          j.path = e.path ∧ j.innerW = iw ∧ j.innerH = ih ∧ j.is_pdf = (e.ext == "pdf") := by
  intro ts
  induction ts with
  | nil =>
    intro s c
    refine ⟨fun _ => rfl, by simp [runTicks], ?_⟩
    intro j hj
    cases hj
  | cons t ts ih2 =>
    intro s c
    have hstep : (runTicks s c (some e) iw ih (t :: ts)).2.2
        = (drawTick s c t.now t.results (some e) iw ih).jobs
          ++ (runTicks (drawTick s c t.now t.results (some e) iw ih).state
                (drawTick s c t.now t.results (some e) iw ih).cache (some e) iw ih ts).2.2 := rfl
    refine ⟨?_, ?_, ?_⟩
    · intro hnm
      have hno := drawTick_noMore s c t.now t.results e iw ih hkind hnm.1 hnm.2
      rw [hstep, hno.1, List.nil_append]
      exact (ih2 _ _).1 ⟨hno.2.1, hno.2.2⟩
    · rcases drawTick_shape s c t.now t.results e iw ih hkind with hsh | ⟨hp, hs, rid, hjobs⟩
      · rw [hstep, hsh, List.nil_append]
        exact (ih2 _ _).2.1
      · rw [hstep, hjobs]
        rw [(ih2 _ _).1 ⟨hp, hs⟩]
        simp
    · intro j hj
      rw [hstep] at hj
      rcases List.mem_append.mp hj with hj3 | hj3
      · rcases drawTick_shape s c t.now t.results e iw ih hkind with hsh | ⟨hp, hs, rid, hjobs⟩
        · rw [hsh] at hj3
          cases hj3
        · rw [hjobs] at hj3
          have hj4 := List.mem_singleton.mp hj3
          subst hj4
          exact ⟨rfl, rfl, rfl, rfl⟩
      · exact (ih2 _ _).2.2 j hj3

/-- A selection-move event arms a fresh 60 ms deadline. -/
theorem selectionMove_deadline (s : UiState) (t : Nat) :
    (selectionMove s t).previewDeadline = some (t + 60) := rfl

/-- A burst sequence whose ticks all stay inside the armed debounce
windows performs the moves and nothing else: no job is enqueued and the
cache is untouched. -/
theorem runGroups_in_window (iw ih : Nat) :
    ∀ (gs : List MoveGroup) (s : UiState) (c : LruCache),
      GroupsInWindow gs →
      runGroups s c iw ih gs
        = ⟨gs.foldl (fun st g => selectionMove st g.time) s, c, []⟩ := by
  intro gs
  induction gs with
  | nil =>
    intro s c _
    rfl
  | cons g gs ih2 =>
    intro s c hwf
    have h1 : runTicks (selectionMove s g.time) c (some g.entry) iw ih g.ticks
        = ⟨selectionMove s g.time, c, []⟩ :=
      runTicks_within_deadline (some g.entry) iw ih (g.time + 60) g.ticks
        (selectionMove s g.time) c rfl
        (fun t ht => hwf g (List.mem_cons_self g gs) t ht)
    have h2 := ih2 (selectionMove s g.time) c
      (fun g2 hg2 t ht => hwf g2 (List.mem_cons_of_mem g hg2) t ht)
    simp only [runGroups]
    rw [h1]
    simp only []
    rw [h2]
    simp [List.foldl_cons]

/-- C7: a redraw tick strictly before the debounce deadline renders only
the "…" placeholder and performs no cache access and no dispatch (state,
cache and job queue unchanged); consequently, for a rapid sequence of
selection moves whose interleaved ticks all fall inside the armed 60 ms
windows, nothing is enqueued during the moves, and the ticks after the
final move enqueue at most one PreviewRequest, which carries the final
settled selection's path and pane rectangle. -/
theorem debounce_gate_and_coalescing :
    (∀ (s : UiState) (c : LruCache) (now : Nat) (rs : List (Nat × Option Protocol))
        (sel : Option Entry) (iw ih d : Nat),
        s.previewDeadline = some d → now < d →
        drawTick s c now rs sel iw ih = ⟨s, c, [], PreviewRender.dots⟩)
    ∧ ∀ (s : UiState) (c : LruCache) (iw ih : Nat) (gs : List MoveGroup) (g : MoveGroup)
        (post : List TickIn),
        GroupsInWindow (gs ++ [g]) →
        (runGroups s c iw ih (gs ++ [g])).2.2 = []
        ∧ (runTicks (runGroups s c iw ih (gs ++ [g])).1
            (runGroups s c iw ih (gs ++ [g])).2.1 (some g.entry) iw ih post).2.2.length ≤ 1
        ∧ ∀ j ∈ (runTicks (runGroups s c iw ih (gs ++ [g])).1
              (runGroups s c iw ih (gs ++ [g])).2.1 (some g.entry) iw ih post).2.2,
            j.path = g.entry.path ∧ j.innerW = iw ∧ j.innerH = ih := by
  constructor
  · exact fun s c now rs sel iw ih d hd hnow =>
      drawTick_before_deadline s c now rs sel iw ih d hd hnow
  · intro s c iw ih gs g post hwf
    have hrg := runGroups_in_window iw ih (gs ++ [g]) s c hwf
    refine ⟨by rw [hrg], ?_, ?_⟩
    · by_cases hkind : ((isImageExt g.entry.ext || g.entry.ext == "pdf") && g.entry.isFile) = true
      · exact (runTicks_at_most_one g.entry iw ih hkind post _ _).2.1
      · have hall : ∀ e2, (some g.entry : Option Entry) = some e2 →
            ((isImageExt e2.ext || e2.ext == "pdf") && e2.isFile) = false := by
          intro e2 he2
          injection he2 with he3
          rw [← he3]
          exact Bool.eq_false_iff.mpr hkind
        rw [runTicks_nonImage (some g.entry) iw ih hall post _ _]
        simp
    · intro j hj
      by_cases hkind : ((isImageExt g.entry.ext || g.entry.ext == "pdf") && g.entry.isFile) = true
      · have h4 := (runTicks_at_most_one g.entry iw ih hkind post _ _).2.2 j hj
        exact ⟨h4.1, h4.2.1, h4.2.2.1⟩
      · have hall : ∀ e2, (some g.entry : Option Entry) = some e2 →
            ((isImageExt e2.ext || e2.ext == "pdf") && e2.isFile) = false := by
          intro e2 he2
          injection he2 with he3
          rw [← he3]
          exact Bool.eq_false_iff.mpr hkind
        rw [runTicks_nonImage (some g.entry) iw ih hall post _ _] at hj
        cases hj

/-- Witness for `debounce_gate_and_coalescing`: two rapid selection moves
(onto a.png at time 0, then b.png at time 40) with ticks at times 30 and
70 inside the windows enqueue nothing, and two settled ticks at 120 and
140 enqueue at most one request. -/
theorem debounce_gate_and_coalescing_witness :
    (runGroups ⟨none, none, none, false, none, 0, 0⟩ appCache 40 20
        ([⟨⟨"a.png", "png", true, false⟩, 0, [⟨30, []⟩]⟩]
          ++ [⟨⟨"b.png", "png", true, false⟩, 40, [⟨70, []⟩]⟩])).2.2 = []
    ∧ (runTicks
        (runGroups ⟨none, none, none, false, none, 0, 0⟩ appCache 40 20
          ([⟨⟨"a.png", "png", true, false⟩, 0, [⟨30, []⟩]⟩]
            ++ [⟨⟨"b.png", "png", true, false⟩, 40, [⟨70, []⟩]⟩])).1
        (runGroups ⟨none, none, none, false, none, 0, 0⟩ appCache 40 20
          ([⟨⟨"a.png", "png", true, false⟩, 0, [⟨30, []⟩]⟩]
            ++ [⟨⟨"b.png", "png", true, false⟩, 40, [⟨70, []⟩]⟩])).2.1
        (some ⟨"b.png", "png", true, false⟩) 40 20 [⟨120, []⟩, ⟨140, []⟩]).2.2.length ≤ 1 :=
  ⟨(debounce_gate_and_coalescing.2 ⟨none, none, none, false, none, 0, 0⟩ appCache 40 20
      [⟨⟨"a.png", "png", true, false⟩, 0, [⟨30, []⟩]⟩]
      ⟨⟨"b.png", "png", true, false⟩, 40, [⟨70, []⟩]⟩ [⟨120, []⟩, ⟨140, []⟩]
      (by unfold GroupsInWindow; decide)).1,
   (debounce_gate_and_coalescing.2 ⟨none, none, none, false, none, 0, 0⟩ appCache 40 20
      [⟨⟨"a.png", "png", true, false⟩, 0, [⟨30, []⟩]⟩]
      ⟨⟨"b.png", "png", true, false⟩, 40, [⟨70, []⟩]⟩ [⟨120, []⟩, ⟨140, []⟩]
      (by unfold GroupsInWindow; decide)).2.1⟩

/-- C10: the key under which the worker inserts a produced artifact for a
job equals the key the UI computes for the job's path and rectangle; the
UI key is invariant across rectangles in the same quantization bucket; an
inserted artifact is found by the next lookup of the same key; and every
job a tick enqueues for an entry and rectangle has exactly the insert key
that matches that tick's lookup key. -/
theorem cache_key_agreement :
    (∀ (rid : Nat) (p : String) (iw ih : Nat) (pdf : Bool),
        workerPutKey ⟨rid, p, iw, ih, pdf⟩ = uiKey p iw ih)
    ∧ (∀ (p : String) (iw ih iw2 ih2 : Nat),
        quantize iw2 = quantize iw → quantize ih2 = quantize ih →
        uiKey p iw2 ih2 = uiKey p iw ih)
    ∧ (∀ (c : LruCache) (k : ImageKey) (v : Protocol), 1 ≤ c.cap →
        ((c.put k v).getLru k).1 = some v)
    ∧ ∀ (s : UiState) (c : LruCache) (now : Nat) (rs : List (Nat × Option Protocol))
        (e : Entry) (iw ih : Nat) (j : PreviewJob),
        j ∈ (drawTick s c now rs (some e) iw ih).jobs →
        workerPutKey j = uiKey e.path iw ih := by
  refine ⟨fun rid p iw ih pdf => rfl, fun p iw ih iw2 ih2 h1 h2 => ?_,
    fun c k v hcap => ?_, fun s c now rs e iw ih j hj => ?_⟩
  · unfold uiKey
    rw [h1, h2]
  · rcases hc : c.cap with _ | n
    · omega
    · unfold LruCache.put LruCache.getLru
      simp [hc, List.take_succ_cons]
  · by_cases hkind : ((isImageExt e.ext || e.ext == "pdf") && e.isFile) = true
    · rcases drawTick_shape s c now rs e iw ih hkind with hsh | ⟨hp, hs, rid, hjobs⟩
      · rw [hsh] at hj
        cases hj
      · rw [hjobs] at hj
        have hj2 := List.mem_singleton.mp hj
        subst hj2
        rfl
    · have hall : ∀ e2, (some e : Option Entry) = some e2 →
          ((isImageExt e2.ext || e2.ext == "pdf") && e2.isFile) = false := by
        intro e2 he2
        injection he2 with he3
        rw [← he3]
        exact Bool.eq_false_iff.mpr hkind
      rw [drawTick_nonImage_jobs s c now rs (some e) iw ih hall] at hj
      cases hj

/-- Witness for `cache_key_agreement`: the quantization bucket of an
80×40 pane also covers 81×41, and a freshly inserted artifact is found by
the next lookup of its key. -/
theorem cache_key_agreement_witness :
    uiKey ("a.png") 81 41 = uiKey ("a.png") 80 40
    ∧ ((appCache.put (uiKey ("a.png") 80 40) 5).getLru (uiKey ("a.png") 80 40)).1 = some 5 :=
  ⟨cache_key_agreement.2.1 ("a.png") 80 40 81 41 (by decide) (by decide),
   cache_key_agreement.2.2.1 appCache (uiKey ("a.png") 80 40) 5 (by decide)⟩
